import Mathlib

/-!
# Verification of the audiosync chunked-audio transport and sync engine

Shallow embedding of the audiosync repository's core:

* the host-side audio chunking (`createAudioChunk`, `preprocessAudioChunks`
  in the chunked `AudioSync` class),
* the client-side synchronization state machine (`handleAudioChunk`,
  `handleControlMessage`, `scheduleChunksAhead`, `startClientPlayback`,
  `stopPlayback`, `pause`, `getCurrentPosition`),
* the `WebRTCClient` peer transport (`sendBinaryToClient`) and the chunked
  file-transfer protocol (`sendFileChunks`, `createFileFromChunks`, the
  `file-start`/`file-chunk`/`file-end` receiver paths).

JavaScript numbers are modelled as `ℚ` (all quantities appearing here are
exact decimal/integer values), chunk sequence numbers as `ℤ`, byte buffers
as `List ℕ`, and the insertion-ordered JS `Map`/`Set` key collections as
`List ℤ` without duplicates.
-/

namespace AudioSyncSpec

/-! ## Generic chunking helpers -/

/-- Number of chunks `ceil (n / c)` computed in `ℕ` (`c > 0`). -/
def chunkCount (n c : ℕ) : ℕ := (n + c - 1) / c

/-- Applying `Math.ceil` to a quotient of naturals agrees with `chunkCount`. -/
theorem ceil_div_eq_chunkCount (n c : ℕ) (hc : 0 < c) :
    (⌈(n : ℚ) / (c : ℚ)⌉ : ℤ).toNat = chunkCount n c := by
  have hcq : (0 : ℚ) < (c : ℚ) := by exact_mod_cast hc
  have hmod := Nat.div_add_mod (n + c - 1) c
  have hlt : (n + c - 1) % c < c := Nat.mod_lt _ hc
  set q := (n + c - 1) / c with hq
  have hA : n ≤ c * q := by omega
  have hB : c * q < n + c := by omega
  have hAq : (n : ℚ) ≤ (c : ℚ) * (q : ℚ) := by exact_mod_cast hA
  have hBq : (c : ℚ) * (q : ℚ) < (n : ℚ) + (c : ℚ) := by exact_mod_cast hB
  have hceil : (⌈(n : ℚ) / (c : ℚ)⌉ : ℤ) = (q : ℤ) := by
    rw [Int.ceil_eq_iff]
    constructor
    · rw [lt_div_iff₀ hcq]
      push_cast
      nlinarith
    · rw [div_le_iff₀ hcq]
      push_cast
      nlinarith
  rw [hceil]
  unfold chunkCount
  rw [← hq]
  simp

/-- Splitting a list into `chunkCount`-many size-`c` windows and joining
them back is the identity (`c > 0`). -/
theorem join_range_chunks {α : Type} (c : ℕ) (hc : 0 < c) :
    ∀ (l : List α),
      (((List.range (chunkCount l.length c)).map
        fun k => ((l.drop (k * c)).take c)).flatten) = l := by
  suffices H : ∀ (n : ℕ) (l : List α), l.length = n →
      (((List.range (chunkCount l.length c)).map
        fun k => ((l.drop (k * c)).take c)).flatten) = l by
    intro l
    exact H l.length l rfl
  intro n
  induction n using Nat.strong_induction_on with
  | _ n ih =>
    intro l hl
    rcases Nat.eq_zero_or_pos l.length with h0 | hpos
    · have : l = [] := List.eq_nil_of_length_eq_zero h0
      subst this
      simp [chunkCount, Nat.div_eq_of_lt (by omega : c - 1 < c)]
    · have hcount : chunkCount l.length c =
          chunkCount (l.drop c).length c + 1 := by
        simp only [chunkCount, List.length_drop]
        have hstep : (l.length + c - 1) / c = (l.length - 1) / c + 1 := by
          have h1 : l.length + c - 1 = (l.length - 1) + c := by omega
          rw [h1, Nat.add_div_right _ hc]
        rcases le_or_lt l.length c with hle | hlt
        · have h2 : (l.length - c + c - 1) / c = 0 :=
            Nat.div_eq_of_lt (by omega)
          have h3 : (l.length - 1) / c = 0 :=
            Nat.div_eq_of_lt (by omega)
          rw [hstep, h3, h2]
        · have h2 : l.length - c + c - 1 = l.length - 1 := by omega
          rw [h2]
          exact hstep
      rw [hcount, List.range_succ_eq_map, List.map_cons, List.map_map,
        List.flatten_cons]
      have hrec : ((List.range (chunkCount (l.drop c).length c)).map
          ((fun k => ((l.drop (k * c)).take c)) ∘ Nat.succ)).flatten = l.drop c := by
        have hdrop : ∀ k : ℕ, (l.drop (Nat.succ k * c)).take c =
            (((l.drop c).drop (k * c)).take c) := by
          intro k
          simp [Nat.succ_mul, List.drop_drop, Nat.add_comm]
        calc ((List.range (chunkCount (l.drop c).length c)).map
              ((fun k => ((l.drop (k * c)).take c)) ∘ Nat.succ)).flatten
            = ((List.range (chunkCount (l.drop c).length c)).map
              (fun k => (((l.drop c).drop (k * c)).take c))).flatten := by
              congr 1
              apply List.map_congr_left
              intro k _
              exact hdrop k
          _ = l.drop c := ih (l.drop c).length
              (by rw [List.length_drop]; omega) (l.drop c) rfl
      rw [hrec]
      simp [List.take_append_drop]

/-! ## C2: chunked file transfer (`WebRTCClient.sendFileChunks` /
`createFileFromChunks`, src part_005) -/

/-- The 16 KB file-transfer chunk size (`const chunkSize = 16384`). -/
def fileChunkSize : ℕ := 16384

/-- Total chunk count `totalChunks = Math.ceil(file.size / chunkSize)` from
`sendFileToClient`. -/
def totalFileChunks (size : ℕ) : ℕ :=
  (⌈(size : ℚ) / (fileChunkSize : ℚ)⌉ : ℤ).toNat

/-- One step of `sendFileChunks`: chunk `k` is
`file.slice(k*chunkSize, Math.min((k+1)*chunkSize, file.size))`. -/
def fileSlice (bytes : List ℕ) (k : ℕ) : List ℕ :=
  (bytes.drop (k * fileChunkSize)).take
    (min (k * fileChunkSize + fileChunkSize) bytes.length - k * fileChunkSize)

/-- The ordered sequence of binary chunks emitted by `sendFileChunks`
for a whole file (indices `0 .. totalChunks-1` in order). -/
def sendFileChunks (bytes : List ℕ) : List (List ℕ) :=
  (List.range (totalFileChunks bytes.length)).map (fileSlice bytes)

/-- Blob assembly of `createFileFromChunks`: the received blob is the concatenation of the
buffered chunks in arrival order (`new Blob(transfer.chunks)`). -/
def createFileFromChunks (chunks : List (List ℕ)) : List ℕ :=
  chunks.flatten

theorem fileSlice_eq_take_drop (bytes : List ℕ) (k : ℕ) :
    fileSlice bytes k = (bytes.drop (k * fileChunkSize)).take fileChunkSize := by
  unfold fileSlice
  rcases le_or_lt (k * fileChunkSize + fileChunkSize) bytes.length with hle | hlt
  · congr 1
    omega
  · rw [List.take_eq_take]
    simp only [List.length_drop]
    omega

/-- C2: reassembling the chunks of `sendFileChunks` in send order is the
identity on the byte list; on an ordered channel arrival order equals send
order, so the receiver's blob is byte-identical to the source blob (this
covers every chunk count `N`, in particular `N ∈ {1, 2, 100}`). -/
theorem c2_file_transfer_roundtrip (bytes : List ℕ) :
    createFileFromChunks (sendFileChunks bytes) = bytes := by
  have hchunks : sendFileChunks bytes =
      (List.range (chunkCount bytes.length fileChunkSize)).map
        (fun k => ((bytes.drop (k * fileChunkSize)).take fileChunkSize)) := by
    unfold sendFileChunks totalFileChunks
    rw [ceil_div_eq_chunkCount _ _ (by decide)]
    apply List.map_congr_left
    intro k _
    exact fileSlice_eq_take_drop bytes k
  unfold createFileFromChunks
  rw [hchunks]
  exact join_range_chunks fileChunkSize (by decide) bytes

/-! ## C1: host audio chunking (`createAudioChunk` /
`preprocessAudioChunks`, chunked `AudioSync` class, src part_003) -/

/-- Chunk duration in milliseconds (`private readonly chunkDuration = 250`). -/
def chunkDurationMs : ℚ := 250

/-- Seconds per chunk, `const secondsPerChunk = this.chunkDuration / 1000`. -/
def secondsPerChunk : ℚ := chunkDurationMs / 1000

/-- The decoded Web Audio `AudioBuffer` held by the host. `length` is the
frame count; each entry of `channels` is one channel's sample data (a
decoded buffer's channels all have `length` samples, carried as a
hypothesis where needed). Sample values are modelled as `ℤ`: the chunker
copies them verbatim, so only identity of values matters. -/
structure AudioBufferModel where
  sampleRate : ℕ
  length : ℕ
  channels : List (List ℤ)
  deriving Repr, DecidableEq

/-- Track duration `AudioBuffer.duration = length / sampleRate` (seconds). -/
def AudioBufferModel.duration (b : AudioBufferModel) : ℚ :=
  (b.length : ℚ) / (b.sampleRate : ℚ)

/-- Source method `createAudioChunk(startPosition, duration)`:
`startSample = Math.floor(startPosition * sampleRate)` and
`chunkSamples = Math.min(Math.ceil(duration * sampleRate), this.audioBuffer.length - startSample)`;
returns `null` when `chunkSamples <= 0`, otherwise a chunk buffer whose
channel `c` at index `i` holds `channelData[startSample + i]` when
`startSample + i < channelData.length` and the `createBuffer` zero fill
otherwise (`List.getD _ _ 0` captures the guarded copy; call sites only
use nonnegative positions, so `Int.toNat` on the floor is exact). -/
def createAudioChunk (b : AudioBufferModel) (startPosition duration : ℚ) :
    Option (List (List ℤ)) :=
  let startSample : ℤ := ⌊startPosition * (b.sampleRate : ℚ)⌋
  let chunkSamples : ℤ :=
    min ⌈duration * (b.sampleRate : ℚ)⌉ ((b.length : ℤ) - startSample)
  if chunkSamples ≤ 0 then none
  else some (b.channels.map fun ch =>
    (List.range chunkSamples.toNat).map fun i =>
      ch.getD (startSample.toNat + i) 0)

/-- Source method `preprocessAudioChunks`:
`totalChunks = Math.ceil(totalDuration / secondsPerChunk)`, and chunk `i`
(`0 ≤ i < totalChunks`) is `createAudioChunk(i * secondsPerChunk,
secondsPerChunk)`, cached under sequence `i` when non-null, in increasing
`i` order. -/
def preprocessAudioChunks (b : AudioBufferModel) :
    List (ℕ × List (List ℤ)) :=
  (List.range ((⌈b.duration / secondsPerChunk⌉ : ℤ).toNat)).filterMap fun i =>
    (createAudioChunk b (((i : ℕ) : ℚ) * secondsPerChunk) secondsPerChunk).map
      fun chunk => (i, chunk)

/-- Concatenation, in increasing sequence order, of channel `c` of every
cached chunk (the preprocessed cache is already in increasing sequence
order). -/
def reassembleChannel (chunks : List (ℕ × List (List ℤ))) (c : ℕ) :
    List ℤ :=
  (chunks.map fun p => (p.2).getD c []).flatten

/-- A window of `getD` reads is a `take` of a `drop` while it stays in
range. -/
theorem getD_range_eq_take_drop (ch : List ℤ) (s m : ℕ)
    (h : s + m ≤ ch.length) :
    (List.range m).map (fun j => ch.getD (s + j) 0) = (ch.drop s).take m := by
  apply List.ext_getElem
  · simp only [List.length_map, List.length_range, List.length_take,
      List.length_drop]
    omega
  · intro i h1 h2
    simp only [List.length_map, List.length_range] at h1
    simp only [List.getElem_map, List.getElem_range, List.getElem_take,
      List.getElem_drop]
    rw [List.getD_eq_getElem?_getD, List.getElem?_eq_getElem (by omega)]
    simp

/-- C1 counterexample: a mono track of 2 samples at sample rate 2 Hz.
`preprocessAudioChunks` produces 4 chunks whose sample windows overlap
(chunk starts `floor(i·0.25·2) = 0,0,1,1`), so concatenating them in
sequence order yields `[1, 1, 2, 2]`, not the original `[1, 2]`: the
chunking is not lossless for every sample rate. -/
theorem ceil_one_half : (⌈(1 : ℚ) / 2⌉ : ℤ) = 1 := by
  rw [Int.ceil_eq_iff] ; norm_num

theorem c1_chunking_counterexample :
    reassembleChannel
        (preprocessAudioChunks (AudioBufferModel.mk 2 2 [[1, 2]])) 0 ≠
      (AudioBufferModel.mk 2 2 [[1, 2]]).channels.getD 0 [] := by
  have hc0 : createAudioChunk (AudioBufferModel.mk 2 2 [[1, 2]])
      (((0 : ℕ) : ℚ) * secondsPerChunk) secondsPerChunk = some [[1]] := by
    unfold createAudioChunk
    norm_num [secondsPerChunk, chunkDurationMs]
    rw [ceil_one_half]
    decide
  have hc1 : createAudioChunk (AudioBufferModel.mk 2 2 [[1, 2]])
      (((1 : ℕ) : ℚ) * secondsPerChunk) secondsPerChunk = some [[1]] := by
    unfold createAudioChunk
    norm_num [secondsPerChunk, chunkDurationMs]
    rw [ceil_one_half]
    decide
  have hc2 : createAudioChunk (AudioBufferModel.mk 2 2 [[1, 2]])
      (((2 : ℕ) : ℚ) * secondsPerChunk) secondsPerChunk = some [[2]] := by
    unfold createAudioChunk
    norm_num [secondsPerChunk, chunkDurationMs]
    decide
  have hc3 : createAudioChunk (AudioBufferModel.mk 2 2 [[1, 2]])
      (((3 : ℕ) : ℚ) * secondsPerChunk) secondsPerChunk = some [[2]] := by
    unfold createAudioChunk
    norm_num [secondsPerChunk, chunkDurationMs]
    decide
  have htot : ((⌈(AudioBufferModel.mk 2 2 [[1, 2]]).duration /
      secondsPerChunk⌉ : ℤ)).toNat = 4 := by
    norm_num [AudioBufferModel.duration, secondsPerChunk, chunkDurationMs]
    decide
  have hrange : List.range 4 = [0, 1, 2, 3] := rfl
  have hpre : preprocessAudioChunks (AudioBufferModel.mk 2 2 [[1, 2]]) =
      [(0, [[1]]), (1, [[1]]), (2, [[2]]), (3, [[2]])] := by
    unfold preprocessAudioChunks
    rw [htot, hrange]
    simp only [List.filterMap_cons, List.filterMap_nil, hc0, hc1, hc2, hc3,
      Option.map_some']
  rw [hpre]
  decide

/-- Evaluating `createAudioChunk` at sequence position `i` under a sample rate `4*k`
is exactly the `[i*k, i*k + k)` sample window of every channel. -/
theorem createAudioChunk_spec (b : AudioBufferModel) (k i : ℕ)
    (hk : 0 < k) (hsr : b.sampleRate = 4 * k) (hik : i * k < b.length) :
    createAudioChunk b (((i : ℕ) : ℚ) * secondsPerChunk) secondsPerChunk =
      some (b.channels.map fun ch =>
        (List.range (min k (b.length - i * k))).map fun j =>
          ch.getD (i * k + j) 0) := by
  have hsrq : (b.sampleRate : ℚ) = 4 * (k : ℚ) := by
    rw [hsr]; push_cast; ring
  have hsp : secondsPerChunk = 1 / 4 := by
    norm_num [secondsPerChunk, chunkDurationMs]
  have hfloor : ⌊((i : ℕ) : ℚ) * secondsPerChunk * (b.sampleRate : ℚ)⌋ =
      ((i * k : ℕ) : ℤ) := by
    rw [hsp, hsrq]
    have : ((i : ℕ) : ℚ) * (1 / 4) * (4 * (k : ℚ)) = ((i * k : ℕ) : ℚ) := by
      push_cast; ring
    rw [this, Int.floor_natCast]
  have hceil : ⌈secondsPerChunk * (b.sampleRate : ℚ)⌉ = ((k : ℕ) : ℤ) := by
    rw [hsp, hsrq]
    have : (1 / 4 : ℚ) * (4 * (k : ℚ)) = ((k : ℕ) : ℚ) := by
      ring
    rw [this, Int.ceil_natCast]
  unfold createAudioChunk
  simp only [hfloor, hceil]
  have hcs : min ((k : ℕ) : ℤ) ((b.length : ℤ) - ((i * k : ℕ) : ℤ)) =
      ((min k (b.length - i * k) : ℕ) : ℤ) := by
    push_cast
    omega
  rw [hcs]
  rw [if_neg (by omega)]
  simp only [Int.toNat_natCast]

/-- C1 (amended): the chunking round-trip is lossless for every channel
count and every track whose sample rate is a multiple of 4 — i.e. whenever
a 250 ms chunk spans a whole number `sampleRate/4` of samples, which holds
for all standard rates divisible by 4 (44100, 48000, …): concatenating the
preprocessed chunks in increasing sequence order reconstructs every
channel's sample data exactly. -/
theorem c1_chunking_roundtrip (b : AudioBufferModel)
    (hdvd : 4 ∣ b.sampleRate) (hsr : 0 < b.sampleRate)
    (hwf : ∀ ch ∈ b.channels, ch.length = b.length)
    (c : ℕ) (hc : c < b.channels.length) :
    reassembleChannel (preprocessAudioChunks b) c =
      b.channels.getD c [] := by
  obtain ⟨k, hk4⟩ := hdvd
  have hk : 0 < k := by omega
  have hkq : ((k : ℚ)) ≠ 0 := by positivity
  -- Step 1: the preprocessed chunk list is the full window decomposition.
  have htot : ((⌈b.duration / secondsPerChunk⌉ : ℤ)).toNat =
      chunkCount b.length k := by
    have hsp : secondsPerChunk = 1 / 4 := by
      norm_num [secondsPerChunk, chunkDurationMs]
    have hdur : b.duration / secondsPerChunk = (b.length : ℚ) / (k : ℚ) := by
      rw [AudioBufferModel.duration, hsp, hk4]
      push_cast
      field_simp
      ring
    rw [hdur, ceil_div_eq_chunkCount _ _ hk]
  have hpre : preprocessAudioChunks b =
      (List.range (chunkCount b.length k)).map fun i =>
        (i, b.channels.map fun ch =>
          (List.range (min k (b.length - i * k))).map fun j =>
            ch.getD (i * k + j) 0) := by
    unfold preprocessAudioChunks
    rw [htot]
    rw [List.filterMap_eq_map_iff_forall_eq_some.mpr ?_]
    intro i hi
    have hik : i * k < b.length := by
      have hi2 : i < chunkCount b.length k := List.mem_range.mp hi
      have : i + 1 ≤ (b.length + k - 1) / k := hi2
      have := (Nat.le_div_iff_mul_le hk).mp this
      have hmul : (i + 1) * k = i * k + k := by ring
      omega
    rw [createAudioChunk_spec b k i hk hk4 hik]
    simp
  -- Step 2: project channel `c` and reduce to the generic chunk law.
  have hch : (b.channels.getD c []).length = b.length := by
    rw [List.getD_eq_getElem _ _ hc]
    exact hwf _ (List.getElem_mem hc)
  rw [hpre]
  unfold reassembleChannel
  rw [List.map_map]
  have hmaps : ((List.range (chunkCount b.length k)).map
      ((fun p : ℕ × List (List ℤ) => (p.2).getD c []) ∘ fun i =>
        (i, b.channels.map fun ch =>
          (List.range (min k (b.length - i * k))).map fun j =>
            ch.getD (i * k + j) 0))) =
      (List.range (chunkCount b.length k)).map fun i =>
        (((b.channels.getD c []).drop (i * k)).take k) := by
    apply List.map_congr_left
    intro i hi
    have hik : i * k < b.length := by
      have hi2 : i < chunkCount b.length k := List.mem_range.mp hi
      have : i + 1 ≤ (b.length + k - 1) / k := hi2
      have := (Nat.le_div_iff_mul_le hk).mp this
      have hmul : (i + 1) * k = i * k + k := by ring
      omega
    simp only [Function.comp_apply]
    rw [List.getD_eq_getElem _ _ (by simpa using hc), List.getElem_map]
    rw [← List.getD_eq_getElem _ _ hc]
    rw [getD_range_eq_take_drop _ _ _ (by rw [hch]; omega)]
    rw [List.take_eq_take]
    simp only [List.length_drop, hch]
    omega
  rw [hmaps]
  have := join_range_chunks k hk (b.channels.getD c [])
  rw [hch] at this
  exact this

/-- Witness for the amended C1 theorem at a concrete stereo-free input:
sample rate 4, five samples. -/
theorem c1_chunking_roundtrip_witness :
    reassembleChannel
        (preprocessAudioChunks (AudioBufferModel.mk 4 5 [[1, 2, 3, 4, 5]])) 0 =
      (AudioBufferModel.mk 4 5 [[1, 2, 3, 4, 5]]).channels.getD 0 [] :=
  c1_chunking_roundtrip (AudioBufferModel.mk 4 5 [[1, 2, 3, 4, 5]])
    (by decide) (by decide) (by decide) 0 (by decide)

/-! ## Synchronization engine state (chunked `AudioSync` class, src
part_003) -/

/-- Pre-buffer threshold `preBufferCount = 5`. -/
def preBufferCount : ℕ := 5

/-- Sync tolerance `syncTolerance = 0.3` seconds. -/
def syncTolerance : ℚ := 3 / 10

/-- Key insertion of a JS `Map.set` / `Set.add`: appended when absent,
order preserved when already present. -/
def insertKey (l : List ℤ) (x : ℤ) : List ℤ :=
  if x ∈ l then l else l ++ [x]

/-- The spread `Math.min(...Array.from(keys))` over a nonempty key list (the sources
only apply it when `size > 0`; 0 for an empty list). -/
def minKey : List ℤ → ℤ
  | [] => 0
  | x :: xs => xs.foldl min x

/-- The fold `availableChunks.reduce((prev, curr) =>
Math.abs(curr - target) < Math.abs(prev - target) ? curr : prev)` over the
insertion-ordered key list (the source guards on `size > 0`; 0 for an
empty list). -/
def closestKey (l : List ℤ) (t : ℤ) : ℤ :=
  match l with
  | [] => 0
  | x :: xs => xs.foldl (fun prev curr =>
      if |curr - t| < |prev - t| then curr else prev) x

/-- Control messages emitted by the engine paths modelled here
(`requestChunk` broadcasts `{type:'request-chunk', sequence}`; `pause`
broadcasts `{type:'control', action:'pause', position}`). -/
inductive Msg where
  | requestChunk (seq : ℤ)
  | controlPause (position : ℚ)
  deriving Repr, DecidableEq

/-- The mutable fields of the chunked `AudioSync` class read or written by
the modelled paths. `audioChunks` / `receivedChunks` are the
insertion-ordered key lists of the JS `Map`s of cached chunks,
`scheduledChunks` the JS `Set`; `sourceNode` records whether
`this.sourceNode` is non-null, `hasAudioContext` / `hasAudioBuffer`
whether `audioContext` / `audioBuffer` are non-null; `syncTimerOn` whether
the host sync interval is armed. Times are audio-context seconds. -/
structure SyncState where
  isHostUser : Bool
  hasAudioContext : Bool
  hasAudioBuffer : Bool
  sourceNode : Bool
  playbackRate : ℚ
  isPlaying : Bool
  startTime : ℚ
  pausedAt : ℚ
  nextChunkToPlay : ℤ
  scheduledChunks : List ℤ
  waitingForChunk : Option ℤ
  lastChunkEndTime : ℚ
  audioChunks : List ℤ
  receivedChunks : List ℤ
  autoPlayAfterSyncReceived : Bool
  syncTimerOn : Bool
  highestReceivedChunk : ℤ
  hasDoneInitialSync : Bool
  deriving Repr, DecidableEq

/-- Source method `getCurrentPosition()`: `pausedAt` when idle or without an audio
context; the live clock position for a playing host; the chunk-cursor
position `nextChunkToPlay * secondsPerChunk` for a playing client.
`acTime` is `audioContext.currentTime`. -/
def getCurrentPosition (s : SyncState) (acTime : ℚ) : ℚ :=
  if ¬s.hasAudioContext ∨ ¬s.isPlaying then s.pausedAt
  else if s.isHostUser then s.pausedAt + (acTime - s.startTime)
  else (s.nextChunkToPlay : ℚ) * secondsPerChunk

/-- Source method `stopPlayback()` (private): stops and clears the source node, clears
the playing flag, the scheduled set and the sync timer, and folds the
elapsed audio-context time into `pausedAt` (the momentary gain-node
disconnect/reconnect is audio-graph plumbing with no engine state).
Emits no messages. -/
def stopPlayback (s : SyncState) (acTime : ℚ) : SyncState :=
  { s with
    sourceNode := false
    isPlaying := false
    scheduledChunks := []
    syncTimerOn := false
    pausedAt :=
      if s.hasAudioContext then s.pausedAt + (acTime - s.startTime)
      else s.pausedAt }

/-- Source method `pause()`: early return when not playing; otherwise stops the source
node, clears the playing flag and the sync timer and — host only —
broadcasts `control:pause` carrying the stored `this.pausedAt` (which the
method does not update). -/
def pause (s : SyncState) : SyncState × List Msg :=
  if ¬s.isPlaying then (s, [])
  else
    ({ s with sourceNode := false, isPlaying := false, syncTimerOn := false },
     if s.isHostUser then [Msg.controlPause s.pausedAt] else [])

/-- One iteration of the `scheduleChunksAhead` loop at sequence `seq`
(`isPlaying` and the audio context already checked). `durs seq` is the
duration of the cached decoded chunk `seq`; `silentDur` the duration of
`createSilentChunk(secondsPerChunk)`, which exists only when a decoded
`audioBuffer` is present (a pure client has none, so a cache miss
schedules nothing). `time` is the running `scheduleTime`; a cache miss
issues `request-chunk` and marks `waitingForChunk`. -/
def scheduleOne (durs : ℤ → ℚ) (silentDur : ℚ) (s : SyncState) (time : ℚ)
    (seq : ℤ) : SyncState × ℚ × List Msg :=
  if seq ∈ s.scheduledChunks then (s, time, [])
  else if seq ∈ s.audioChunks then
    ({ s with scheduledChunks := s.scheduledChunks ++ [seq],
              lastChunkEndTime := time + durs seq },
     time + durs seq, [])
  else if s.hasAudioBuffer then
    ({ s with waitingForChunk := some seq,
              scheduledChunks := s.scheduledChunks ++ [seq],
              lastChunkEndTime := time + silentDur },
     time + silentDur, [Msg.requestChunk seq])
  else
    ({ s with waitingForChunk := some seq }, time, [Msg.requestChunk seq])

/-- The `for (let i = 0; i < count; i++)` loop of `scheduleChunksAhead`
over the remaining loop indices (`this.nextChunkToPlay` is not written in
the loop body, so the base sequence `next` is fixed at entry). -/
def scheduleLoop (durs : ℤ → ℚ) (silentDur : ℚ) (next : ℤ) :
    List ℕ → SyncState → ℚ → SyncState × ℚ × List Msg
  | [], s, time => (s, time, [])
  | i :: rest, s, time =>
    let r1 := scheduleOne durs silentDur s time (next + (i : ℤ))
    let r2 := scheduleLoop durs silentDur next rest r1.1 r1.2.1
    (r2.1, r2.2.1, r1.2.2 ++ r2.2.2)

/-- Source method `scheduleChunksAhead(count)`: returns immediately without an audio
context or when not playing; otherwise runs the loop starting at
`scheduleTime = Math.max(audioContext.currentTime, lastChunkEndTime)`. -/
def scheduleChunksAhead (durs : ℤ → ℚ) (silentDur : ℚ) (acTime : ℚ)
    (s : SyncState) (count : ℕ) : SyncState × List Msg :=
  if ¬s.hasAudioContext ∨ ¬s.isPlaying then (s, [])
  else
    let r := scheduleLoop durs silentDur s.nextChunkToPlay
      (List.range count) s (max acTime s.lastChunkEndTime)
    (r.1, r.2.2)

/-- Source method `startClientPlayback(startSequence)`: no-op without an audio context;
stops existing playback, resets cursor and scheduling state, then
schedules a 5-chunk look-ahead window. The inactivity watchdog
(`resetInactiveTimer`) and the periodic sync-request loop
(`setupSyncCheck`) only arm wall-clock timers whose later firings are
separate events. -/
def startClientPlayback (durs : ℤ → ℚ) (silentDur : ℚ) (acTime : ℚ)
    (s : SyncState) (startSequence : ℤ) : SyncState × List Msg :=
  if ¬s.hasAudioContext then (s, [])
  else
    let s1 := if s.isPlaying then stopPlayback s acTime else s
    let s2 := { s1 with
      isPlaying := true
      nextChunkToPlay := startSequence
      scheduledChunks := []
      waitingForChunk := none
      lastChunkEndTime := 0
      hasDoneInitialSync := false }
    scheduleChunksAhead durs silentDur acTime s2 5

/-- Source method `handleAudioChunk` after its chunk body decodes successfully: records
the raw buffer and the decoded chunk under the sequence, tracks the
highest received sequence, starts client playback from the lowest cached
sequence once the pre-buffer threshold is reached (the
`autoPlayAfterSyncReceived` flag is never cleared in the source), and
resumes scheduling when this was the awaited chunk. -/
def handleAudioChunk (durs : ℤ → ℚ) (silentDur : ℚ) (acTime : ℚ)
    (s : SyncState) (seq : ℤ) : SyncState × List Msg :=
  let s1 := { s with
    receivedChunks := insertKey s.receivedChunks seq
    highestReceivedChunk :=
      if s.highestReceivedChunk < seq then seq else s.highestReceivedChunk }
  if ¬s1.hasAudioContext then (s1, [])
  else
    let s2 := { s1 with audioChunks := insertKey s1.audioChunks seq }
    let r3 :=
      if ¬s2.isPlaying ∧ s2.autoPlayAfterSyncReceived ∧
          preBufferCount ≤ s2.audioChunks.length then
        startClientPlayback durs silentDur acTime s2 (minKey s2.audioChunks)
      else (s2, [])
    if r3.1.isPlaying ∧ r3.1.waitingForChunk = some seq then
      let r4 := scheduleChunksAhead durs silentDur acTime
        { r3.1 with waitingForChunk := none } 5
      (r4.1, r3.2 ++ r4.2)
    else r3

/-- The `case 'sync'` branch of `handleControlMessage` (drift correction
from a periodic host `SyncSample`). `pos` / `hostTsMs` are the sample's
`position` (seconds) and `timestamp` (wall-clock ms); `nowMs` is
`Date.now()` at processing time. Hard resync stops playback, retargets
the cursor at `floor(adjustedHostPosition / secondsPerChunk)`, clears
scheduled state and schedules a fresh 10-chunk window; the fine band
nudges the playback rate by at most 5 % (its 1 s reset is a timer). -/
def handleSyncControl (durs : ℤ → ℚ) (silentDur : ℚ) (acTime nowMs : ℚ)
    (s : SyncState) (pos hostTsMs : ℚ) : SyncState × List Msg :=
  if s.isHostUser ∨ ¬s.isPlaying ∨ ¬s.hasAudioContext then (s, [])
  else
    let adjustedHostPosition := pos + (nowMs - hostTsMs) / 1000
    let positionDiff := adjustedHostPosition - getCurrentPosition s acTime
    if syncTolerance < |positionDiff| then
      let targetChunk := ⌊adjustedHostPosition / secondsPerChunk⌋
      let s1 := stopPlayback s acTime
      let s2 := { s1 with
        isPlaying := true
        nextChunkToPlay := targetChunk
        waitingForChunk := none
        lastChunkEndTime := 0
        scheduledChunks := [] }
      let r := scheduleChunksAhead durs silentDur acTime s2 10
      ({ r.1 with hasDoneInitialSync := true }, r.2)
    else if 1 / 20 < |positionDiff| ∧ s.sourceNode then
      (if 0 < positionDiff then
        { s with playbackRate := 1 + min (1 / 20) positionDiff }
      else
        { s with playbackRate := 1 - min (1 / 20) |positionDiff| }, [])
    else if s.sourceNode ∧ s.playbackRate ≠ 1 then
      ({ s with playbackRate := 1 }, [])
    else (s, [])

/-- The `case 'sync-response'` branch of `handlePeerMessage` (reply to a
client round-trip probe): `rtt = Date.now() - data.requestTime` and the
host position is compensated by `rtt / 2000` — half the round trip in
seconds — before the same hard-resync comparison (`stopPlayback` already
clears the scheduled set on this path). -/
def handleSyncResponse (durs : ℤ → ℚ) (silentDur : ℚ) (acTime nowMs : ℚ)
    (s : SyncState) (pos requestTimeMs : ℚ) : SyncState × List Msg :=
  if s.isHostUser ∨ ¬s.isPlaying ∨ ¬s.hasAudioContext then (s, [])
  else
    let adjustedHostPosition := pos + (nowMs - requestTimeMs) / 2000
    let positionDiff := adjustedHostPosition - getCurrentPosition s acTime
    if syncTolerance < |positionDiff| then
      let targetChunk := ⌊adjustedHostPosition / secondsPerChunk⌋
      let s1 := stopPlayback s acTime
      let s2 := { s1 with
        isPlaying := true
        nextChunkToPlay := targetChunk
        waitingForChunk := none
        lastChunkEndTime := 0 }
      scheduleChunksAhead durs silentDur acTime s2 10
    else (s, [])

/-- The `case 'seek'` branch of `handleControlMessage`: `pause()`, then —
only when some chunks are cached — restart playback from the cached
sequence *closest* to `targetChunk = floor(position / secondsPerChunk)`. -/
def handleSeekControl (durs : ℤ → ℚ) (silentDur : ℚ) (acTime : ℚ)
    (s : SyncState) (pos : ℚ) : SyncState × List Msg :=
  let r1 := pause s
  if 0 < r1.1.audioChunks.length then
    let targetChunk := ⌊pos / secondsPerChunk⌋
    let r2 := startClientPlayback durs silentDur acTime r1.1
      (closestKey r1.1.audioChunks targetChunk)
    (r2.1, r1.2 ++ r2.2)
  else r1

/-- One `scheduleChunksAhead` iteration leaves the playing flag, source
node, audio context, cursor, cache and pause clock untouched, and adds at
most its own sequence to the scheduled set. -/
theorem scheduleOne_spec (durs : ℤ → ℚ) (silentDur : ℚ) (s : SyncState)
    (time : ℚ) (seq : ℤ) :
    (scheduleOne durs silentDur s time seq).1.isPlaying = s.isPlaying ∧
    (scheduleOne durs silentDur s time seq).1.sourceNode = s.sourceNode ∧
    (scheduleOne durs silentDur s time seq).1.hasAudioContext =
      s.hasAudioContext ∧
    (scheduleOne durs silentDur s time seq).1.nextChunkToPlay =
      s.nextChunkToPlay ∧
    (scheduleOne durs silentDur s time seq).1.audioChunks = s.audioChunks ∧
    (scheduleOne durs silentDur s time seq).1.pausedAt = s.pausedAt ∧
    ∀ q ∈ (scheduleOne durs silentDur s time seq).1.scheduledChunks,
      q ∈ s.scheduledChunks ∨ q = seq := by
  unfold scheduleOne
  split_ifs <;> simp_all [List.mem_append]

/-- Frame and window property of the whole `scheduleChunksAhead` loop. -/
theorem scheduleLoop_spec (durs : ℤ → ℚ) (silentDur : ℚ) (next : ℤ) :
    ∀ (idxs : List ℕ) (s : SyncState) (time : ℚ),
      (scheduleLoop durs silentDur next idxs s time).1.isPlaying =
        s.isPlaying ∧
      (scheduleLoop durs silentDur next idxs s time).1.sourceNode =
        s.sourceNode ∧
      (scheduleLoop durs silentDur next idxs s time).1.hasAudioContext =
        s.hasAudioContext ∧
      (scheduleLoop durs silentDur next idxs s time).1.nextChunkToPlay =
        s.nextChunkToPlay ∧
      (scheduleLoop durs silentDur next idxs s time).1.audioChunks =
        s.audioChunks ∧
      (scheduleLoop durs silentDur next idxs s time).1.pausedAt =
        s.pausedAt ∧
      ∀ q ∈ (scheduleLoop durs silentDur next idxs s time).1.scheduledChunks,
        q ∈ s.scheduledChunks ∨ ∃ i ∈ idxs, q = next + (i : ℤ) := by
  intro idxs
  induction idxs with
  | nil =>
    intro s time
    simp [scheduleLoop]
  | cons i rest ih =>
    intro s time
    obtain ⟨o1, o2, o3, o4, o5, o6, o7⟩ :=
      scheduleOne_spec durs silentDur s time (next + (i : ℤ))
    obtain ⟨h1, h2, h3, h4, h5, h6, h7⟩ :=
      ih (scheduleOne durs silentDur s time (next + (i : ℤ))).1
        (scheduleOne durs silentDur s time (next + (i : ℤ))).2.1
    refine ⟨by rw [scheduleLoop]; rw [h1, o1],
            by rw [scheduleLoop]; rw [h2, o2],
            by rw [scheduleLoop]; rw [h3, o3],
            by rw [scheduleLoop]; rw [h4, o4],
            by rw [scheduleLoop]; rw [h5, o5],
            by rw [scheduleLoop]; rw [h6, o6], ?_⟩
    intro q hq
    rw [scheduleLoop] at hq
    rcases h7 q hq with hmem | ⟨j, hj, hqe⟩
    · rcases o7 q hmem with hmem2 | hqe
      · exact Or.inl hmem2
      · exact Or.inr ⟨i, List.mem_cons_self i rest, hqe⟩
    · exact Or.inr ⟨j, List.mem_cons_of_mem i hj, hqe⟩

/-- Running `scheduleChunksAhead` on a playing state with an audio context: frame
conditions plus every newly scheduled sequence lies in the look-ahead
window `[nextChunkToPlay, nextChunkToPlay + count)`. -/
theorem scheduleChunksAhead_spec (durs : ℤ → ℚ) (silentDur : ℚ)
    (acTime : ℚ) (s : SyncState) (count : ℕ)
    (hctx : s.hasAudioContext = true) (hplay : s.isPlaying = true) :
    (scheduleChunksAhead durs silentDur acTime s count).1.isPlaying = true ∧
    (scheduleChunksAhead durs silentDur acTime s count).1.sourceNode =
      s.sourceNode ∧
    (scheduleChunksAhead durs silentDur acTime s count).1.hasAudioContext =
      true ∧
    (scheduleChunksAhead durs silentDur acTime s count).1.nextChunkToPlay =
      s.nextChunkToPlay ∧
    (scheduleChunksAhead durs silentDur acTime s count).1.audioChunks =
      s.audioChunks ∧
    (scheduleChunksAhead durs silentDur acTime s count).1.pausedAt =
      s.pausedAt ∧
    ∀ q ∈ (scheduleChunksAhead durs silentDur acTime s count).1.scheduledChunks,
      q ∈ s.scheduledChunks ∨
        (s.nextChunkToPlay ≤ q ∧ q < s.nextChunkToPlay + (count : ℤ)) := by
  unfold scheduleChunksAhead
  rw [if_neg (by simp [hctx, hplay])]
  obtain ⟨h1, h2, h3, h4, h5, h6, h7⟩ :=
    scheduleLoop_spec durs silentDur s.nextChunkToPlay (List.range count) s
      (max acTime s.lastChunkEndTime)
  refine ⟨by rw [h1, hplay], h2, by rw [h3, hctx], h4, h5, h6, ?_⟩
  intro q hq
  rcases h7 q hq with hmem | ⟨i, hi, hqe⟩
  · exact Or.inl hmem
  · refine Or.inr ?_
    have hilt : i < count := List.mem_range.mp hi
    subst hqe
    constructor
    · omega
    · have : (i : ℤ) < (count : ℤ) := by exact_mod_cast hilt
      omega

/-- Running `startClientPlayback` under an audio context: ends playing with the
cursor at `startSequence` and only window sequences
`[startSequence, startSequence + 5)` scheduled; the cache and audio
context are untouched. -/
theorem startClientPlayback_spec (durs : ℤ → ℚ) (silentDur : ℚ)
    (acTime : ℚ) (s : SyncState) (startSequence : ℤ)
    (hctx : s.hasAudioContext = true) :
    (startClientPlayback durs silentDur acTime s startSequence).1.isPlaying =
      true ∧
    (startClientPlayback durs silentDur acTime s
      startSequence).1.hasAudioContext = true ∧
    (startClientPlayback durs silentDur acTime s
      startSequence).1.nextChunkToPlay = startSequence ∧
    (startClientPlayback durs silentDur acTime s
      startSequence).1.audioChunks = s.audioChunks ∧
    ∀ q ∈ (startClientPlayback durs silentDur acTime s
        startSequence).1.scheduledChunks,
      startSequence ≤ q ∧ q < startSequence + 5 := by
  have hs1ctx : (if s.isPlaying then stopPlayback s acTime
      else s).hasAudioContext = true := by
    by_cases hp : s.isPlaying <;> simp [hp, stopPlayback, hctx]
  have hs1chunks : (if s.isPlaying then stopPlayback s acTime
      else s).audioChunks = s.audioChunks := by
    by_cases hp : s.isPlaying <;> simp [hp, stopPlayback]
  obtain ⟨h1, h2, h3, h4, h5, h6, h7⟩ :=
    scheduleChunksAhead_spec durs silentDur acTime
      { (if s.isPlaying then stopPlayback s acTime else s) with
        isPlaying := true
        nextChunkToPlay := startSequence
        scheduledChunks := []
        waitingForChunk := none
        lastChunkEndTime := 0
        hasDoneInitialSync := false } 5
      (by simpa using hs1ctx) rfl
  unfold startClientPlayback
  rw [if_neg (by simp [hctx])]
  exact ⟨h1, h3, by simpa using h4, by rw [h5]; simpa using hs1chunks, by
    intro q hq
    rcases h7 q hq with hmem | hwin
    · simp at hmem
    · simpa using hwin⟩

/-- A concrete playing-client state used for instantiations. -/
def clientPlayingState : SyncState :=
  { isHostUser := false
    hasAudioContext := true
    hasAudioBuffer := false
    sourceNode := false
    playbackRate := 1
    isPlaying := true
    startTime := 0
    pausedAt := 0
    nextChunkToPlay := 12
    scheduledChunks := [12, 13]
    waitingForChunk := none
    lastChunkEndTime := 0
    audioChunks := [12, 13, 14]
    receivedChunks := [12, 13, 14]
    autoPlayAfterSyncReceived := true
    syncTimerOn := false
    highestReceivedChunk := 14
    hasDoneInitialSync := false }

/-- A concrete idle (not playing) engine state. -/
def idleEngineState : SyncState :=
  { clientPlayingState with isPlaying := false, pausedAt := 5 }

/-- A concrete host mid-playback: started playing from position 0 at
audio-context time 0. -/
def hostPlayingState : SyncState :=
  { isHostUser := true
    hasAudioContext := true
    hasAudioBuffer := true
    sourceNode := true
    playbackRate := 1
    isPlaying := true
    startTime := 0
    pausedAt := 0
    nextChunkToPlay := 0
    scheduledChunks := []
    waitingForChunk := none
    lastChunkEndTime := 0
    audioChunks := []
    receivedChunks := []
    autoPlayAfterSyncReceived := true
    syncTimerOn := true
    highestReceivedChunk := -1
    hasDoneInitialSync := false }

/-- C10: for a playing client, `getCurrentPosition()` returns
`nextChunkToPlay * secondsPerChunk` — a whole multiple of the 250 ms chunk
duration, independent of the audio clock (hence never the actual
audio-output position between chunk boundaries) — and when not playing it
returns `pausedAt`; drift computed from it therefore has one-chunk
granularity. -/
theorem c10_client_position_quantized (s : SyncState) (acTime acTime2 : ℚ)
    (hclient : s.isHostUser = false) (hctx : s.hasAudioContext = true) :
    (s.isPlaying = true →
      getCurrentPosition s acTime =
        (s.nextChunkToPlay : ℚ) * secondsPerChunk ∧
      (∃ k : ℤ, getCurrentPosition s acTime = (k : ℚ) * secondsPerChunk) ∧
      getCurrentPosition s acTime = getCurrentPosition s acTime2) ∧
    (s.isPlaying = false → getCurrentPosition s acTime = s.pausedAt) := by
  unfold getCurrentPosition
  constructor
  · intro hp
    rw [if_neg (by simp [hctx, hp]), if_neg (by simp [hclient])]
    exact ⟨rfl, ⟨s.nextChunkToPlay, rfl⟩,
      by rw [if_neg (by simp [hctx, hp]), if_neg (by simp [hclient])]⟩
  · intro hp
    rw [if_pos (by simp [hp])]

/-- Witness for C10 at a concrete playing client and two clock readings. -/
theorem c10_client_position_quantized_witness :
    (clientPlayingState.isPlaying = true →
      getCurrentPosition clientPlayingState 3 =
        (clientPlayingState.nextChunkToPlay : ℚ) * secondsPerChunk ∧
      (∃ k : ℤ, getCurrentPosition clientPlayingState 3 =
        (k : ℚ) * secondsPerChunk) ∧
      getCurrentPosition clientPlayingState 3 =
        getCurrentPosition clientPlayingState 7) ∧
    (clientPlayingState.isPlaying = false →
      getCurrentPosition clientPlayingState 3 =
        clientPlayingState.pausedAt) :=
  c10_client_position_quantized clientPlayingState 3 7 rfl rfl

/-- C9 counterexample: `stopPlayback()` on an already idle engine is not
state-preserving — it rewrites `pausedAt` by the elapsed audio-context
time (here from 5 to 5 + (10 - 0) = 15), so "leaves the entire engine
state unchanged" fails for the stop path. -/
theorem c9_stop_idle_counterexample :
    idleEngineState.isPlaying = false ∧
    idleEngineState.pausedAt = 5 ∧
    (stopPlayback idleEngineState 10).pausedAt = 15 := by
  refine ⟨rfl, rfl, ?_⟩
  norm_num [stopPlayback, idleEngineState, clientPlayingState]

/-- C9 (amended): `pause()` on an idle engine is a complete no-op — state
unchanged, no messages, no error. `stopPlayback()` on an idle engine also
emits nothing and throws nothing and leaves the engine idle with cleared
scheduling and timers, but recomputes `pausedAt` by the elapsed
audio-context time instead of leaving the state untouched. -/
theorem c9_idle_stop_pause (s : SyncState) (acTime : ℚ)
    (hidle : s.isPlaying = false) :
    pause s = (s, []) ∧
    (stopPlayback s acTime).isPlaying = false ∧
    (stopPlayback s acTime).scheduledChunks = [] ∧
    (stopPlayback s acTime).sourceNode = false ∧
    (stopPlayback s acTime).syncTimerOn = false ∧
    (stopPlayback s acTime).pausedAt =
      (if s.hasAudioContext then s.pausedAt + (acTime - s.startTime)
       else s.pausedAt) := by
  refine ⟨?_, rfl, rfl, rfl, rfl, rfl⟩
  unfold pause
  rw [if_pos (by simp [hidle])]

/-- Witness for the amended C9 at the concrete idle state and clock 10. -/
theorem c9_idle_stop_pause_witness :
    pause idleEngineState = (idleEngineState, []) ∧
    (stopPlayback idleEngineState 10).isPlaying = false ∧
    (stopPlayback idleEngineState 10).scheduledChunks = [] ∧
    (stopPlayback idleEngineState 10).sourceNode = false ∧
    (stopPlayback idleEngineState 10).syncTimerOn = false ∧
    (stopPlayback idleEngineState 10).pausedAt =
      (if idleEngineState.hasAudioContext then
        idleEngineState.pausedAt + (10 - idleEngineState.startTime)
       else idleEngineState.pausedAt) :=
  c9_idle_stop_pause idleEngineState 10 rfl

/-- C8: the code broadcasts the stale stored `pausedAt`, not the playback
position at the moment of the pause. A host that started playing from
position 0 at audio-context time 0 and pauses at time 5 is at playback
position 5, yet `pause()` broadcasts `control:pause` with `position: 0`
and leaves `pausedAt = 0`, so a later `play()` resumes from 0 — `pause`
never folds the elapsed time into `pausedAt` the way `stopPlayback`
does. -/
theorem c8_pause_position_stale :
    getCurrentPosition hostPlayingState 5 = 5 ∧
    (pause hostPlayingState).2 = [Msg.controlPause 0] ∧
    (pause hostPlayingState).1.pausedAt = 0 ∧
    getCurrentPosition hostPlayingState 5 ≠ (pause hostPlayingState).1.pausedAt := by
  have h1 : getCurrentPosition hostPlayingState 5 = 5 := by
    norm_num [getCurrentPosition, hostPlayingState]
  have h2 : (pause hostPlayingState).2 = [Msg.controlPause 0] := by
    unfold pause
    rw [if_neg (by simp [hostPlayingState])]
    simp [hostPlayingState]
  have h3 : (pause hostPlayingState).1.pausedAt = 0 := by
    unfold pause
    rw [if_neg (by simp [hostPlayingState])]
    rfl
  refine ⟨h1, h2, h3, ?_⟩
  rw [h1, h3]
  norm_num

/-- C3: hard resync. For a playing client with an audio context, drift
against a periodic sync sample is
`(position + (now - timestamp)/1000) - getCurrentPosition` and, whenever
`|drift|` exceeds the 300 ms `syncTolerance`, processing the sample stops
current playback (source node cleared), sets the cursor to
`floor(adjustedHostPosition / secondsPerChunk)`, clears all previously
scheduled state and schedules a fresh look-ahead window from that
sequence; for a round-trip `sync-response` probe the host position is
instead compensated by half the measured round trip (`rtt/2000` seconds)
with the same resync behaviour. -/
theorem c3_hard_resync (durs : ℤ → ℚ) (silentDur : ℚ)
    (acTime nowMs pos hostTsMs requestTimeMs : ℚ) (s : SyncState)
    (hclient : s.isHostUser = false) (hplay : s.isPlaying = true)
    (hctx : s.hasAudioContext = true)
    (hdrift : syncTolerance <
      |pos + (nowMs - hostTsMs) / 1000 - getCurrentPosition s acTime|)
    (hdrift2 : syncTolerance <
      |pos + (nowMs - requestTimeMs) / 2000 - getCurrentPosition s acTime|) :
    ((handleSyncControl durs silentDur acTime nowMs s pos
        hostTsMs).1.isPlaying = true ∧
      (handleSyncControl durs silentDur acTime nowMs s pos
        hostTsMs).1.sourceNode = false ∧
      (handleSyncControl durs silentDur acTime nowMs s pos
        hostTsMs).1.nextChunkToPlay =
        ⌊(pos + (nowMs - hostTsMs) / 1000) / secondsPerChunk⌋ ∧
      ∀ q ∈ (handleSyncControl durs silentDur acTime nowMs s pos
          hostTsMs).1.scheduledChunks,
        ⌊(pos + (nowMs - hostTsMs) / 1000) / secondsPerChunk⌋ ≤ q ∧
        q < ⌊(pos + (nowMs - hostTsMs) / 1000) / secondsPerChunk⌋ + 10) ∧
    ((handleSyncResponse durs silentDur acTime nowMs s pos
        requestTimeMs).1.isPlaying = true ∧
      (handleSyncResponse durs silentDur acTime nowMs s pos
        requestTimeMs).1.sourceNode = false ∧
      (handleSyncResponse durs silentDur acTime nowMs s pos
        requestTimeMs).1.nextChunkToPlay =
        ⌊(pos + (nowMs - requestTimeMs) / 2000) / secondsPerChunk⌋ ∧
      ∀ q ∈ (handleSyncResponse durs silentDur acTime nowMs s pos
          requestTimeMs).1.scheduledChunks,
        ⌊(pos + (nowMs - requestTimeMs) / 2000) / secondsPerChunk⌋ ≤ q ∧
        q < ⌊(pos + (nowMs - requestTimeMs) / 2000) / secondsPerChunk⌋ + 10) := by
  constructor
  · obtain ⟨h1, h2, h3, h4, h5, h6, h7⟩ :=
      scheduleChunksAhead_spec durs silentDur acTime
        { stopPlayback s acTime with
          isPlaying := true
          nextChunkToPlay :=
            ⌊(pos + (nowMs - hostTsMs) / 1000) / secondsPerChunk⌋
          waitingForChunk := none
          lastChunkEndTime := 0
          scheduledChunks := [] } 10
        (by simp [stopPlayback, hctx]) rfl
    unfold handleSyncControl
    rw [if_neg (by simp [hclient, hplay, hctx])]
    simp only []
    rw [if_pos hdrift]
    refine ⟨h1, h2.trans rfl, h4.trans rfl, ?_⟩
    intro q hq
    rcases h7 q hq with hmem | hwin
    · simp at hmem
    · simpa using hwin
  · obtain ⟨h1, h2, h3, h4, h5, h6, h7⟩ :=
      scheduleChunksAhead_spec durs silentDur acTime
        { stopPlayback s acTime with
          isPlaying := true
          nextChunkToPlay :=
            ⌊(pos + (nowMs - requestTimeMs) / 2000) / secondsPerChunk⌋
          waitingForChunk := none
          lastChunkEndTime := 0 } 10
        (by simp [stopPlayback, hctx]) rfl
    unfold handleSyncResponse
    rw [if_neg (by simp [hclient, hplay, hctx])]
    simp only []
    rw [if_pos hdrift2]
    refine ⟨h1, h2.trans rfl, h4.trans rfl, ?_⟩
    intro q hq
    rcases h7 q hq with hmem | hwin
    · simp [stopPlayback] at hmem
    · simpa using hwin

/-- Witness for C3: a playing client at chunk cursor 12 (local position
3 s) receiving host position 10 s with no elapsed time and a zero round
trip — drift 7 s exceeds the 300 ms tolerance on both paths. -/
theorem c3_hard_resync_witness :
    ((handleSyncControl (fun _ => secondsPerChunk) secondsPerChunk 0 5
        clientPlayingState 10 5).1.isPlaying = true ∧
      (handleSyncControl (fun _ => secondsPerChunk) secondsPerChunk 0 5
        clientPlayingState 10 5).1.sourceNode = false ∧
      (handleSyncControl (fun _ => secondsPerChunk) secondsPerChunk 0 5
        clientPlayingState 10 5).1.nextChunkToPlay =
        ⌊(10 + ((5 : ℚ) - 5) / 1000) / secondsPerChunk⌋ ∧
      ∀ q ∈ (handleSyncControl (fun _ => secondsPerChunk) secondsPerChunk 0 5
          clientPlayingState 10 5).1.scheduledChunks,
        ⌊(10 + ((5 : ℚ) - 5) / 1000) / secondsPerChunk⌋ ≤ q ∧
        q < ⌊(10 + ((5 : ℚ) - 5) / 1000) / secondsPerChunk⌋ + 10) ∧
    ((handleSyncResponse (fun _ => secondsPerChunk) secondsPerChunk 0 5
        clientPlayingState 10 5).1.isPlaying = true ∧
      (handleSyncResponse (fun _ => secondsPerChunk) secondsPerChunk 0 5
        clientPlayingState 10 5).1.sourceNode = false ∧
      (handleSyncResponse (fun _ => secondsPerChunk) secondsPerChunk 0 5
        clientPlayingState 10 5).1.nextChunkToPlay =
        ⌊(10 + ((5 : ℚ) - 5) / 2000) / secondsPerChunk⌋ ∧
      ∀ q ∈ (handleSyncResponse (fun _ => secondsPerChunk) secondsPerChunk 0 5
          clientPlayingState 10 5).1.scheduledChunks,
        ⌊(10 + ((5 : ℚ) - 5) / 2000) / secondsPerChunk⌋ ≤ q ∧
        q < ⌊(10 + ((5 : ℚ) - 5) / 2000) / secondsPerChunk⌋ + 10) :=
  c3_hard_resync (fun _ => secondsPerChunk) secondsPerChunk 0 5 10 5 5
    clientPlayingState rfl rfl rfl
    (by norm_num [getCurrentPosition, clientPlayingState, secondsPerChunk,
      chunkDurationMs, syncTolerance])
    (by norm_num [getCurrentPosition, clientPlayingState, secondsPerChunk,
      chunkDurationMs, syncTolerance])

/-- C4: with the (never cleared) auto-play flag set, a non-playing client
that decodes an incoming chunk starts local playback exactly when the
distinct-sequence cache reaches the pre-buffer count 5 — not at 4, not
later — and the playback cursor starts at the lowest cached sequence. -/
theorem c4_prebuffer_start (durs : ℤ → ℚ) (silentDur acTime : ℚ)
    (s : SyncState) (seq : ℤ)
    (hnot : s.isPlaying = false) (hauto : s.autoPlayAfterSyncReceived = true)
    (hctx : s.hasAudioContext = true) :
    ((handleAudioChunk durs silentDur acTime s seq).1.isPlaying = true ↔
      preBufferCount ≤ (insertKey s.audioChunks seq).length) ∧
    (preBufferCount ≤ (insertKey s.audioChunks seq).length →
      (handleAudioChunk durs silentDur acTime s seq).1.nextChunkToPlay =
        minKey (insertKey s.audioChunks seq)) := by
  unfold handleAudioChunk
  rw [if_neg (by simp [hctx])]
  simp only []
  by_cases hth : preBufferCount ≤ (insertKey s.audioChunks seq).length
  · rw [if_pos (show ¬s.isPlaying = true ∧ s.autoPlayAfterSyncReceived = true ∧
      preBufferCount ≤ (insertKey s.audioChunks seq).length from
        ⟨by simp [hnot], hauto, hth⟩)]
    obtain ⟨g1, g2, g3, g4, g5⟩ :=
      startClientPlayback_spec durs silentDur acTime
        { s with
          receivedChunks := insertKey s.receivedChunks seq
          highestReceivedChunk :=
            if s.highestReceivedChunk < seq then seq
            else s.highestReceivedChunk
          audioChunks := insertKey s.audioChunks seq }
        (minKey (insertKey s.audioChunks seq)) (by simpa using hctx)
    by_cases hw :
      (startClientPlayback durs silentDur acTime
        { s with
          receivedChunks := insertKey s.receivedChunks seq
          highestReceivedChunk :=
            if s.highestReceivedChunk < seq then seq
            else s.highestReceivedChunk
          audioChunks := insertKey s.audioChunks seq }
        (minKey (insertKey s.audioChunks seq))).1.waitingForChunk = some seq
    · rw [if_pos ⟨g1, hw⟩]
      obtain ⟨k1, k2, k3, k4, k5, k6, k7⟩ :=
        scheduleChunksAhead_spec durs silentDur acTime
          { (startClientPlayback durs silentDur acTime
              { s with
                receivedChunks := insertKey s.receivedChunks seq
                highestReceivedChunk :=
                  if s.highestReceivedChunk < seq then seq
                  else s.highestReceivedChunk
                audioChunks := insertKey s.audioChunks seq }
              (minKey (insertKey s.audioChunks seq))).1 with
            waitingForChunk := none } 5
          (by simpa using g2) (by simpa using g1)
      exact ⟨iff_of_true k1 hth, fun _ => k4.trans g3⟩
    · rw [if_neg (fun hc => hw hc.2)]
      exact ⟨iff_of_true g1 hth, fun _ => g3⟩
  · rw [if_neg (show ¬(¬s.isPlaying = true ∧
        s.autoPlayAfterSyncReceived = true ∧
        preBufferCount ≤ (insertKey s.audioChunks seq).length) from
          fun hc => hth hc.2.2)]
    rw [if_neg (fun hc => by have h := hc.1; simp [hnot] at h)]
    constructor
    · constructor
      · intro habs
        simp [hnot] at habs
      · intro habs
        exact absurd habs hth
    · intro habs
      exact absurd habs hth

/-- Witness for C4: a client with 4 cached chunks receives sequence 9;
the cache reaches 5 and playback starts from the lowest sequence 9. -/
theorem c4_prebuffer_start_witness :
    ((handleAudioChunk (fun _ => secondsPerChunk) secondsPerChunk 0
        { clientPlayingState with
          isPlaying := false
          audioChunks := [10, 11, 12, 13]
          receivedChunks := [10, 11, 12, 13] } 9).1.isPlaying = true ↔
      preBufferCount ≤ (insertKey [10, 11, 12, 13] 9).length) ∧
    (preBufferCount ≤ (insertKey [10, 11, 12, 13] 9).length →
      (handleAudioChunk (fun _ => secondsPerChunk) secondsPerChunk 0
        { clientPlayingState with
          isPlaying := false
          audioChunks := [10, 11, 12, 13]
          receivedChunks := [10, 11, 12, 13] } 9).1.nextChunkToPlay =
        minKey (insertKey [10, 11, 12, 13] 9)) :=
  c4_prebuffer_start (fun _ => secondsPerChunk) secondsPerChunk 0
    { clientPlayingState with
      isPlaying := false
      audioChunks := [10, 11, 12, 13]
      receivedChunks := [10, 11, 12, 13] } 9 rfl rfl rfl

/-- The `reduce` fold keeps a value at minimal distance from the target:
its result is at most as far from `t` as the seed and as every list
element. -/
theorem closestFold_dist_le (t : ℤ) :
    ∀ (xs : List ℤ) (x : ℤ),
      |xs.foldl (fun prev curr =>
        if |curr - t| < |prev - t| then curr else prev) x - t| ≤ |x - t| ∧
      ∀ y ∈ xs,
        |xs.foldl (fun prev curr =>
          if |curr - t| < |prev - t| then curr else prev) x - t| ≤ |y - t| := by
  intro xs
  induction xs with
  | nil =>
    intro x
    exact ⟨le_refl _, by simp⟩
  | cons c rest ih =>
    intro x
    obtain ⟨ha, hb⟩ := ih (if |c - t| < |x - t| then c else x)
    have hseed : |(if |c - t| < |x - t| then c else x) - t| ≤ |x - t| := by
      split_ifs with h
      · exact le_of_lt h
      · exact le_refl _
    have hc : |(if |c - t| < |x - t| then c else x) - t| ≤ |c - t| := by
      split_ifs with h
      · exact le_refl _
      · exact not_lt.mp h
    refine ⟨le_trans ha hseed, ?_⟩
    intro y hy
    rcases List.mem_cons.mp hy with rfl | hy2
    · exact le_trans ha hc
    · exact hb y hy2

/-- When the target itself is cached, the closest cached key is the
target. -/
theorem closestKey_of_mem (l : List ℤ) (t : ℤ) (h : t ∈ l) :
    closestKey l t = t := by
  match l, h with
  | x :: xs, h =>
    obtain ⟨ha, hb⟩ := closestFold_dist_le t xs x
    have hz : |closestKey (x :: xs) t - t| ≤ 0 := by
      rcases List.mem_cons.mp h with rfl | hmem
      · simpa [closestKey] using ha
      · simpa [closestKey] using hb t hmem
    have : closestKey (x :: xs) t - t = 0 :=
      abs_eq_zero.mp (le_antisymm hz (abs_nonneg _))
    omega

/-- C6 (amended): a client processing `control:seek` to position `p`
pauses and — when its chunk cache is nonempty — discards all previously
scheduled chunks and restarts scheduling from the *cached sequence
closest to* `floor(p / secondsPerChunk)`, which equals
`floor(p / secondsPerChunk)` itself exactly when that sequence is cached;
with an empty cache it merely pauses. -/
theorem c6_seek_closest_restart (durs : ℤ → ℚ) (silentDur acTime : ℚ)
    (s : SyncState) (pos : ℚ) (hctx : s.hasAudioContext = true)
    (hne : s.audioChunks ≠ []) :
    (handleSeekControl durs silentDur acTime s pos).1.isPlaying = true ∧
    (handleSeekControl durs silentDur acTime s pos).1.nextChunkToPlay =
      closestKey s.audioChunks ⌊pos / secondsPerChunk⌋ ∧
    (∀ q ∈ (handleSeekControl durs silentDur acTime s pos).1.scheduledChunks,
      closestKey s.audioChunks ⌊pos / secondsPerChunk⌋ ≤ q ∧
      q < closestKey s.audioChunks ⌊pos / secondsPerChunk⌋ + 5) ∧
    (⌊pos / secondsPerChunk⌋ ∈ s.audioChunks →
      (handleSeekControl durs silentDur acTime s pos).1.nextChunkToPlay =
        ⌊pos / secondsPerChunk⌋) := by
  have hpc : (pause s).1.audioChunks = s.audioChunks := by
    unfold pause
    split_ifs <;> rfl
  have hpctx : (pause s).1.hasAudioContext = true := by
    unfold pause
    split_ifs <;> simpa using hctx
  obtain ⟨g1, g2, g3, g4, g5⟩ :=
    startClientPlayback_spec durs silentDur acTime (pause s).1
      (closestKey (pause s).1.audioChunks ⌊pos / secondsPerChunk⌋) hpctx
  have hlen : 0 < (pause s).1.audioChunks.length := by
    rw [hpc]
    exact List.length_pos.mpr hne
  have harg : closestKey (pause s).1.audioChunks ⌊pos / secondsPerChunk⌋ =
      closestKey s.audioChunks ⌊pos / secondsPerChunk⌋ := by rw [hpc]
  unfold handleSeekControl
  rw [if_pos hlen]
  refine ⟨g1, g3.trans harg, ?_, ?_⟩
  · intro q hq
    rw [← harg]
    exact g5 q hq
  · intro hmem
    exact (g3.trans harg).trans (closestKey_of_mem _ _ hmem)

/-- C6 counterexample: a client whose cache holds sequences `[12, 13, 14]`
processes `control:seek` to 7.5 s. The claim demands resumption strictly
from `floor(7.5 / 0.25) = 30`, but the code restarts from the *closest
cached* sequence, 14 ≠ 30. -/
theorem c6_seek_counterexample :
    ⌊(15 / 2 : ℚ) / secondsPerChunk⌋ = 30 ∧
    (handleSeekControl (fun _ => secondsPerChunk) secondsPerChunk 0
      clientPlayingState (15 / 2)).1.nextChunkToPlay = 14 ∧
    (14 : ℤ) ≠ 30 := by
  have h30 : ⌊(15 / 2 : ℚ) / secondsPerChunk⌋ = 30 := by
    have : ((15 : ℚ) / 2) / secondsPerChunk = 30 := by
      norm_num [secondsPerChunk, chunkDurationMs]
    rw [this]
    norm_num
  refine ⟨h30, ?_, by decide⟩
  simp only [handleSeekControl, pause, clientPlayingState, h30]
  norm_num
  simp only [closestKey, startClientPlayback, stopPlayback,
    scheduleChunksAhead, scheduleLoop, scheduleOne, List.range_succ,
    List.range_zero]
  norm_num

/-- Witness for the amended C6: cache `[12, 13, 14]`, seek to 7.5 s; the
client restarts from the cached chunk closest to 30, namely 14. -/
theorem c6_seek_closest_restart_witness :
    (handleSeekControl (fun _ => secondsPerChunk) secondsPerChunk 0
      clientPlayingState (15 / 2)).1.isPlaying = true ∧
    (handleSeekControl (fun _ => secondsPerChunk) secondsPerChunk 0
      clientPlayingState (15 / 2)).1.nextChunkToPlay =
      closestKey clientPlayingState.audioChunks ⌊(15 / 2 : ℚ) / secondsPerChunk⌋ ∧
    (∀ q ∈ (handleSeekControl (fun _ => secondsPerChunk) secondsPerChunk 0
        clientPlayingState (15 / 2)).1.scheduledChunks,
      closestKey clientPlayingState.audioChunks
        ⌊(15 / 2 : ℚ) / secondsPerChunk⌋ ≤ q ∧
      q < closestKey clientPlayingState.audioChunks
        ⌊(15 / 2 : ℚ) / secondsPerChunk⌋ + 5) ∧
    (⌊(15 / 2 : ℚ) / secondsPerChunk⌋ ∈ clientPlayingState.audioChunks →
      (handleSeekControl (fun _ => secondsPerChunk) secondsPerChunk 0
        clientPlayingState (15 / 2)).1.nextChunkToPlay =
        ⌊(15 / 2 : ℚ) / secondsPerChunk⌋) :=
  c6_seek_closest_restart (fun _ => secondsPerChunk) secondsPerChunk 0
    clientPlayingState (15 / 2) rfl (by simp [clientPlayingState])

/-! ## C5: transport congestion policy (`WebRTCClient.sendBinaryToClient`
/ `broadcastBinary`, src part_005) -/

/-- The `RTCDataChannel` surface read by the sender: whether
`readyState === 'open'` and the outbound `bufferedAmount` byte counter. -/
structure ChannelState where
  readyStateOpen : Bool
  bufferedAmount : ℕ
  deriving Repr, DecidableEq

/-- The congestion threshold `1024*1024` checked by
`sendBinaryToClient`. -/
def congestionThreshold : ℕ := 1024 * 1024

/-- Sender-side `WebRTCClient` state touched by sends: the per-peer data
channels and the `pendingFiles` queue (file bytes with playlist index),
which only the file-transfer path ever uses. -/
structure SenderState where
  dataChannels : List (String × ChannelState)
  pendingFiles : List (List ℕ × ℕ)
  deriving Repr, DecidableEq

/-- The frames a single binary send can put on the wire: the metadata
control message (with `binaryFollowing: true`, `binarySize` and a `sentAt`
timestamp) and the raw payload. -/
inductive Frame where
  | control (seq : ℤ) (binaryFollowing : Bool) (binarySize : ℕ) (sentAt : ℚ)
  | binary (bytes : List ℕ)
  deriving Repr, DecidableEq

/-- Source method `sendBinaryToClient(peerId, data, metadata)`: return silently when the
channel is missing or not open; return — drop, never queue — when
`bufferedAmount > 1024*1024`; otherwise send the metadata control message
immediately followed by the binary payload. No field of the sender is
written on any path. -/
def sendBinaryToClient (st : SenderState) (peerId : String)
    (bytes : List ℕ) (seq : ℤ) (nowMs : ℚ) : SenderState × List Frame :=
  match st.dataChannels.lookup peerId with
  | none => (st, [])
  | some ch =>
    if ch.readyStateOpen = false then (st, [])
    else if congestionThreshold < ch.bufferedAmount then (st, [])
    else (st, [Frame.control seq true bytes.length nowMs,
               Frame.binary bytes])

/-- Number of chunks delivered over a series of send attempts to one peer,
each attempt observing the peer's channel in the given state; an attempt
delivers exactly when its send emitted frames. -/
def deliveredChunks (attempts : List ChannelState) (bytes : List ℕ)
    (seq : ℤ) (nowMs : ℚ) : ℕ :=
  (attempts.map fun ch =>
    (sendBinaryToClient (SenderState.mk [("peer", ch)] []) "peer"
      bytes seq nowMs).2).countP fun frames => !frames.isEmpty

/-- C5: a congested binary send is dropped entirely — no control message,
no binary frame, no queueing, no sender-state change — and over any
series of attempts the delivered count is exactly the number of attempts
whose channel was open and under the congestion threshold (so with every
3rd attempt congested, deliveries are attempts × 2/3). -/
theorem c5_congestion_drop (st : SenderState) (peerId : String)
    (bytes : List ℕ) (seq : ℤ) (nowMs : ℚ) (ch : ChannelState)
    (hch : st.dataChannels.lookup peerId = some ch)
    (hcong : congestionThreshold < ch.bufferedAmount) :
    sendBinaryToClient st peerId bytes seq nowMs = (st, []) ∧
    ∀ (attempts : List ChannelState) (bytes2 : List ℕ) (seq2 : ℤ)
      (now2 : ℚ),
      deliveredChunks attempts bytes2 seq2 now2 =
        attempts.countP fun c =>
          c.readyStateOpen && !(decide (congestionThreshold < c.bufferedAmount)) := by
  constructor
  · unfold sendBinaryToClient
    rw [hch]
    dsimp only
    by_cases ho : ch.readyStateOpen = false
    · rw [if_pos ho]
    · rw [if_neg ho, if_pos hcong]
  · intro attempts bytes2 seq2 now2
    unfold deliveredChunks
    rw [List.countP_map]
    apply List.countP_congr
    intro c _
    have hlook : List.lookup "peer" [("peer", c)] = some c := by
      simp [List.lookup]
    simp only [Function.comp_apply]
    have he : (!(sendBinaryToClient (SenderState.mk [("peer", c)] []) "peer"
        bytes2 seq2 now2).2.isEmpty) =
        (c.readyStateOpen &&
          !(decide (congestionThreshold < c.bufferedAmount))) := by
      unfold sendBinaryToClient
      rw [show (SenderState.mk [("peer", c)] []).dataChannels =
        [("peer", c)] from rfl, hlook]
      dsimp only
      by_cases ho : c.readyStateOpen = false
      · rw [if_pos ho]
        simp [ho]
      · rw [if_neg ho]
        by_cases hb : congestionThreshold < c.bufferedAmount
        · rw [if_pos hb]
          simp [Bool.not_eq_false] at ho
          simp [ho, hb]
        · rw [if_neg hb]
          simp [Bool.not_eq_false] at ho
          simp [ho, hb]
    rw [he]

/-- Witness for C5: a congested channel (buffered 2 MB) drops the send,
and over six attempts with every 3rd congested, four chunks — 6 × 2/3 —
are delivered. -/
theorem c5_congestion_drop_witness :
    sendBinaryToClient
        (SenderState.mk [("peer", ChannelState.mk true 2097152)] [])
        "peer" [1, 2] 0 0 =
      (SenderState.mk [("peer", ChannelState.mk true 2097152)] [], []) ∧
    deliveredChunks
        [ChannelState.mk true 0, ChannelState.mk true 0,
         ChannelState.mk true 2097152, ChannelState.mk true 0,
         ChannelState.mk true 0, ChannelState.mk true 2097152] [1, 2] 0 0 =
      4 := by
  obtain ⟨h1, h2⟩ := c5_congestion_drop
    (SenderState.mk [("peer", ChannelState.mk true 2097152)] [])
    "peer" [1, 2] 0 0 (ChannelState.mk true 2097152)
    (by simp [List.lookup]) (by norm_num [congestionThreshold])
  refine ⟨h1, ?_⟩
  rw [h2]
  decide

/-! ## C7: chunked file-transfer receiver (`setupDataChannel` /
`createFileFromChunks`, src part_005 multi-peer `WebRTCClient`; src
part_006 single-peer variant, whose `file-end` case differs) -/

/-- A `FileTransfer` record: ordered chunk buffer, `file-start` metadata
and the received-chunk count. -/
structure FileTransfer where
  chunks : List (List ℕ)
  name : String
  mimeType : String
  size : ℕ
  totalChunks : ℕ
  index : ℕ
  receivedChunks : ℕ
  deriving Repr, DecidableEq

/-- Parsed control messages of the file-transfer protocol; `other`
stands for every further tag (all forwarded to the generic callback). -/
inductive RxCtl where
  | fileStart (id name mimeType : String) (size totalChunks index : ℕ)
  | fileChunk (id : String) (chunkIndex : ℕ)
  | fileEnd (id : String)
  | other
  deriving Repr, DecidableEq

/-- One message arriving on the receiver's data channel: a JSON control
string or a binary frame. -/
inductive RxMsg where
  | str (c : RxCtl)
  | bin (bytes : List ℕ)
  deriving Repr, DecidableEq

/-- What the receiver surfaces to the application (`file-received`). -/
inductive RxOut where
  | fileReceived (name : String) (bytes : List ℕ) (index : ℕ)
  deriving Repr, DecidableEq

/-- Receiver state: the `fileTransfers` map (insertion-ordered
association list keyed by transfer id) and whether the `onmessage`
handler has been swapped to capture the next frame as a chunk of the
given transfer. -/
structure RxState where
  fileTransfers : List (String × FileTransfer)
  awaitingChunk : Option String
  deriving Repr, DecidableEq

/-- The JS `Map.set` on the transfer table: overwrite in place, else append. -/
def setTransfer (ts : List (String × FileTransfer)) (k : String)
    (v : FileTransfer) : List (String × FileTransfer) :=
  if (ts.lookup k).isSome then
    ts.map fun p => if p.1 = k then (k, v) else p
  else ts ++ [(k, v)]

/-- The JS `Map.delete` on the transfer table. -/
def deleteTransfer (ts : List (String × FileTransfer)) (k : String) :
    List (String × FileTransfer) :=
  ts.filter fun p => p.1 ≠ k

/-- The receivers' `createFileFromChunks(fileId)` method: look the
transfer up, assemble the blob — `createFileFromChunks` above is its
`new Blob(transfer.chunks)` concatenation — delete the transfer and
surface the file; nothing happens for an unknown id. -/
def completeFileTransfer (st : RxState) (id : String) :
    RxState × List RxOut :=
  match st.fileTransfers.lookup id with
  | none => (st, [])
  | some t =>
    ({ st with fileTransfers := deleteTransfer st.fileTransfers id },
     [RxOut.fileReceived t.name (createFileFromChunks t.chunks) t.index])

/-- One inbound message at the part_005 receiver. While a `file-chunk`
announcement is pending, the swapped-in handler consumes the next message
as that transfer's chunk (on the ordered channel this is the announced
binary frame; the JS handler pushes whatever payload arrives, so a
non-binary frame is modelled with empty bytes), increments the count,
restores the handler, and completes the transfer exactly when the count
reaches `totalChunks`. Otherwise: `file-start` opens a transfer record;
`file-chunk` for a known id arms the capture; `file-end` falls through to
the generic callback — no assembly in this variant; a binary frame with
no announcement pending matches neither handler branch and is dropped. -/
def stepRx5 (st : RxState) (m : RxMsg) : RxState × List RxOut :=
  match st.awaitingChunk with
  | some id =>
    (match st.fileTransfers.lookup id with
     | none => ({ st with awaitingChunk := none }, [])
     | some t =>
       let bytes := match m with
         | RxMsg.bin b => b
         | RxMsg.str _ => []
       let t2 := { t with
         chunks := t.chunks ++ [bytes]
         receivedChunks := t.receivedChunks + 1 }
       let st2 := { st with
         fileTransfers := setTransfer st.fileTransfers id t2
         awaitingChunk := none }
       if t2.receivedChunks = t2.totalChunks then
         completeFileTransfer st2 id
       else (st2, []))
  | none =>
    match m with
    | RxMsg.bin _ => (st, [])
    | RxMsg.str c =>
      match c with
      | RxCtl.fileStart id name mime size total index =>
        let t0 := FileTransfer.mk [] name mime size total index 0
        ({ st with fileTransfers := setTransfer st.fileTransfers id t0 }, [])
      | RxCtl.fileChunk id _ =>
        if (st.fileTransfers.lookup id).isSome then
          ({ st with awaitingChunk := some id }, [])
        else (st, [])
      | RxCtl.fileEnd _ => (st, [])
      | RxCtl.other => (st, [])

/-- One inbound message at the part_006 (single-channel) receiver:
identical to `stepRx5` except its `file-end` "safety check", which calls
`createFileFromChunks` whenever the transfer still exists — regardless of
how many chunks have arrived. -/
def stepRx6 (st : RxState) (m : RxMsg) : RxState × List RxOut :=
  match st.awaitingChunk with
  | some id =>
    (match st.fileTransfers.lookup id with
     | none => ({ st with awaitingChunk := none }, [])
     | some t =>
       let bytes := match m with
         | RxMsg.bin b => b
         | RxMsg.str _ => []
       let t2 := { t with
         chunks := t.chunks ++ [bytes]
         receivedChunks := t.receivedChunks + 1 }
       let st2 := { st with
         fileTransfers := setTransfer st.fileTransfers id t2
         awaitingChunk := none }
       if t2.receivedChunks = t2.totalChunks then
         completeFileTransfer st2 id
       else (st2, []))
  | none =>
    match m with
    | RxMsg.bin _ => (st, [])
    | RxMsg.str c =>
      match c with
      | RxCtl.fileStart id name mime size total index =>
        let t0 := FileTransfer.mk [] name mime size total index 0
        ({ st with fileTransfers := setTransfer st.fileTransfers id t0 }, [])
      | RxCtl.fileChunk id _ =>
        if (st.fileTransfers.lookup id).isSome then
          ({ st with awaitingChunk := some id }, [])
        else (st, [])
      | RxCtl.fileEnd id =>
        if (st.fileTransfers.lookup id).isSome then
          completeFileTransfer st id
        else (st, [])
      | RxCtl.other => (st, [])

/-- Run the part_006 receiver over a message trace, collecting surfaced
files in order. -/
def runRx6 : RxState → List RxMsg → RxState × List RxOut
  | st, [] => (st, [])
  | st, m :: rest =>
    let r := stepRx6 st m
    let rr := runRx6 r.1 rest
    (rr.1, r.2 ++ rr.2)

/-- C7 counterexample: the part_006 receiver gets `file-start` announcing
2 chunks, one chunk (bytes `[7]`), then `file-end` — after three messages
the transfer is partial (`receivedChunks = 1 ≠ 2 = totalChunks`), yet the
`file-end` safety check surfaces the 1-chunk blob to the application: a
partial blob is surfaced. -/
theorem c7_partial_blob_counterexample :
    (runRx6 (RxState.mk [] none)
      [RxMsg.str (RxCtl.fileStart "t" "song" "audio" 32768 2 0),
       RxMsg.str (RxCtl.fileChunk "t" 0),
       RxMsg.bin [7]]).1.fileTransfers.lookup "t" =
      some (FileTransfer.mk [[7]] "song" "audio" 32768 2 0 1) ∧
    (runRx6 (RxState.mk [] none)
      [RxMsg.str (RxCtl.fileStart "t" "song" "audio" 32768 2 0),
       RxMsg.str (RxCtl.fileChunk "t" 0),
       RxMsg.bin [7],
       RxMsg.str (RxCtl.fileEnd "t")]).2 =
      [RxOut.fileReceived "song" [7] 0] ∧
    (1 : ℕ) ≠ 2 := by
  decide

/-- Deleting one transfer id leaves every other id's lookup unchanged. -/
theorem lookup_delete_other (id id2 : String) (hne : id ≠ id2) :
    ∀ ts : List (String × FileTransfer),
      (deleteTransfer ts id).lookup id2 = ts.lookup id2 := by
  intro ts
  induction ts with
  | nil => simp [deleteTransfer]
  | cons p rest ih =>
    obtain ⟨k, w⟩ := p
    by_cases hp : k = id
    · subst hp
      have hbeq : (id2 == k) = false := beq_eq_false_iff_ne.mpr (Ne.symm hne)
      simp [deleteTransfer, List.filter_cons, List.lookup, hbeq]
      simpa [deleteTransfer] using ih
    · by_cases h2 : (id2 == k) = true
      · simp [deleteTransfer, List.filter_cons, hp, List.lookup, h2]
      · simp only [Bool.not_eq_true] at h2
        simp [deleteTransfer, List.filter_cons, hp, List.lookup, h2]
        simpa [deleteTransfer] using ih

/-- Overwriting one transfer id in place leaves every other id's lookup
unchanged. -/
theorem lookup_overwrite_other (id id2 : String) (v : FileTransfer)
    (hne : id ≠ id2) :
    ∀ ts : List (String × FileTransfer),
      (ts.map fun p => if p.1 = id then (id, v) else p).lookup id2 =
        ts.lookup id2 := by
  intro ts
  induction ts with
  | nil => simp
  | cons p rest ih =>
    obtain ⟨k, w⟩ := p
    rw [List.map_cons]
    dsimp only
    by_cases hp : k = id
    · subst hp
      rw [if_pos rfl]
      have hbeq : (id2 == k) = false := beq_eq_false_iff_ne.mpr (Ne.symm hne)
      simp [List.lookup, hbeq, ih]
    · rw [if_neg hp]
      by_cases h2 : (id2 == k) = true
      · simp [List.lookup, h2]
      · simp only [Bool.not_eq_true] at h2
        simp [List.lookup, h2, ih]

/-- Appending a fresh transfer id leaves every other id's lookup
unchanged. -/
theorem lookup_append_other (id id2 : String) (v : FileTransfer)
    (hne : id ≠ id2) :
    ∀ ts : List (String × FileTransfer),
      (ts ++ [(id, v)]).lookup id2 = ts.lookup id2 := by
  intro ts
  induction ts with
  | nil =>
    have hbeq : (id2 == id) = false := beq_eq_false_iff_ne.mpr (Ne.symm hne)
    simp [List.lookup, hbeq]
  | cons p rest ih =>
    obtain ⟨k, w⟩ := p
    by_cases h2 : (id2 == k) = true
    · simp [List.lookup, h2]
    · simp only [Bool.not_eq_true] at h2
      simp [List.lookup, h2, ih]

/-- C7 (amended): the part_005 receiver surfaces a file only at the chunk
that makes `received_count` reach `expected_chunk_count` — any nonempty
output implies the pending transfer satisfied
`receivedChunks + 1 = totalChunks` — and all transfer state is keyed by
transfer id: deleting (discarding a partial transfer) or writing under
one id never changes what any other id resolves to, so an abandoned
transfer is discardable without corrupting concurrent or later transfers.
The part_006 variant's `file-end` safety check can, however, surface a
partial blob (see the counterexample). -/
theorem c7_exact_completion_and_namespacing :
    (∀ (st : RxState) (m : RxMsg) (out : List RxOut),
      (stepRx5 st m).2 = out → out ≠ [] →
      ∃ id t, st.awaitingChunk = some id ∧
        st.fileTransfers.lookup id = some t ∧
        t.receivedChunks + 1 = t.totalChunks) ∧
    (∀ (ts : List (String × FileTransfer)) (id id2 : String)
        (v : FileTransfer), id ≠ id2 →
      (deleteTransfer ts id).lookup id2 = ts.lookup id2 ∧
      (setTransfer ts id v).lookup id2 = ts.lookup id2) := by
  constructor
  · intro st m out hout hne
    unfold stepRx5 at hout
    split at hout
    next id heq =>
      split at hout
      next hL =>
        exact absurd hout.symm (by simpa using hne)
      next t hL =>
        dsimp only at hout
        split at hout
        next hc =>
          exact ⟨id, t, heq, hL, hc⟩
        next hc =>
          exact absurd hout.symm (by simpa using hne)
    next heq =>
      exfalso
      apply hne
      cases m with
      | bin b =>
        dsimp only at hout
        exact hout.symm
      | str c =>
        cases c with
        | fileStart id name mime size total index =>
          dsimp only at hout
          exact hout.symm
        | fileChunk id ci =>
          dsimp only at hout
          split at hout <;> exact hout.symm
        | fileEnd id =>
          dsimp only at hout
          exact hout.symm
        | other =>
          dsimp only at hout
          exact hout.symm
  · intro ts id id2 v hne
    refine ⟨lookup_delete_other id id2 hne ts, ?_⟩
    unfold setTransfer
    split_ifs with hs
    · exact lookup_overwrite_other id id2 v hne ts
    · exact lookup_append_other id id2 v hne ts

/-- Witness for C7 (amended): the pending 1-chunk transfer completes at
its only chunk, and delete/overwrite under id `"b"` leave `"a"`'s entry
untouched. -/
theorem c7_exact_completion_and_namespacing_witness :
    (∃ id t,
      (RxState.mk [("t", FileTransfer.mk [] "song" "audio" 32768 1 0 0)]
        (some "t")).awaitingChunk = some id ∧
      (RxState.mk [("t", FileTransfer.mk [] "song" "audio" 32768 1 0 0)]
        (some "t")).fileTransfers.lookup id = some t ∧
      t.receivedChunks + 1 = t.totalChunks) ∧
    ((deleteTransfer [("a", FileTransfer.mk [] "x" "y" 1 1 0 0)]
        "b").lookup "a" =
      List.lookup "a" [("a", FileTransfer.mk [] "x" "y" 1 1 0 0)] ∧
     (setTransfer [("a", FileTransfer.mk [] "x" "y" 1 1 0 0)] "b"
        (FileTransfer.mk [] "z" "w" 2 2 1 0)).lookup "a" =
      List.lookup "a" [("a", FileTransfer.mk [] "x" "y" 1 1 0 0)]) :=
  ⟨c7_exact_completion_and_namespacing.1
      (RxState.mk [("t", FileTransfer.mk [] "song" "audio" 32768 1 0 0)]
        (some "t"))
      (RxMsg.bin [7]) [RxOut.fileReceived "song" [7] 0]
      (by decide) (by decide),
   c7_exact_completion_and_namespacing.2
      [("a", FileTransfer.mk [] "x" "y" 1 1 0 0)] "b" "a"
      (FileTransfer.mk [] "z" "w" 2 2 1 0) (by decide)⟩

end AudioSyncSpec
